import Mathlib

/-!
# Verification of the delayed-trigger debounce mechanism of notion-tools-bot

Shallow embedding of the debounce/trigger-state subsystem:
`src/models/triggerStatus.ts` (the repository ships two revisions of this
file; we embed the later revision — reset-on-retrigger, "no record → not
due" — which is the revision the scheduled sweep in `src/worker.ts`
depends on), the Notion webhook handler (`handleDatabaseUpdate`,
`handleNotionWebhook`, `formatNotionId`), and the `scheduled` sweep.

JavaScript numbers are modelled by `JSNum` (an exact integer or NaN); all
timestamps handled by the code are integers well below 2^53, so integer
arithmetic is exact in IEEE doubles and the model loses nothing.  The
Cloudflare KV namespace is modelled at the trigger-record level: a read
operation that can fail (`KVGet`, used by `getTriggerStatus`, which
catches such failures) and a plain, always-succeeding map
(`Store`) for the state-transition level where only the written/deleted
records matter.  External collaborators (GitHub dispatch, Telegram) are
parameters: a dispatch outcome is an `Except Unit Unit`.
-/

/-- A JavaScript number as it occurs in this code base: an exact integer
or NaN (all values involved stay far below 2^53, where doubles are exact). -/
inductive JSNum where
  | nan : JSNum
  | num : Int → JSNum
deriving DecidableEq

/-- JavaScript `+` on numbers: NaN is absorbing. -/
def jsAdd : JSNum → JSNum → JSNum
  | JSNum.num a, JSNum.num b => JSNum.num (a + b)
  | _, _ => JSNum.nan

/-- JavaScript `*` on numbers: NaN is absorbing. -/
def jsMul : JSNum → JSNum → JSNum
  | JSNum.num a, JSNum.num b => JSNum.num (a * b)
  | _, _ => JSNum.nan

/-- JavaScript `>=` on numbers: any comparison with NaN is false. -/
def jsGe : JSNum → JSNum → Bool
  | JSNum.num a, JSNum.num b => b ≤ a
  | _, _ => false

/-- Numeric value of a list of decimal digit characters. -/
def digitsVal (cs : List Char) : Nat :=
  cs.foldl (fun a c => a * 10 + (c.toNat - 48)) 0

/-- JavaScript `parseInt(s, 10)`: skip leading whitespace, optional sign,
then the longest prefix of decimal digits; NaN when there is no digit. -/
def jsParseInt (s : String) : JSNum :=
  let cs := s.data.dropWhile Char.isWhitespace
  let signAndRest : Int × List Char :=
    match cs with
    | '-' :: r => (-1, r)
    | '+' :: r => (1, r)
    | _ => (1, cs)
  let ds := signAndRest.2.takeWhile Char.isDigit
  if ds.isEmpty then JSNum.nan
  else JSNum.num (signAndRest.1 * (digitsVal ds : Int))

/-- JavaScript `v || dflt` for an optional string environment value:
`undefined` and the empty string are falsy. -/
def jsOr (v : Option String) (dflt : String) : String :=
  match v with
  | none => dflt
  | some s => if s = "" then dflt else s

/-- The `TriggerStatus` record of `src/models/triggerStatus.ts`. -/
structure TriggerStatus where
  databaseId : String
  nextTriggerTime : JSNum
  pending : Bool
  updatedAt : Int
deriving DecidableEq

/-- KV contents at the trigger-record level: key → stored record or absent. -/
def Store := String → Option TriggerStatus

/-- A KV read operation that can fail (transport or deserialization error). -/
def KVGet := String → Except Unit (Option TriggerStatus)

/-- A `Store` seen as an always-succeeding `KVGet`. -/
def storeGet (st : Store) : KVGet := fun k => Except.ok (st k)

/-- Key derivation used throughout `triggerStatus.ts`:
`TRIGGER_STATUS_PREFIX + databaseId` with `TRIGGER_STATUS_PREFIX = 'trigger_status:'`. -/
def triggerKey (databaseId : String) : String :=
  "trigger_status:" ++ databaseId

/-- `getTriggerStatus`: reads the record at the derived key; any error from
the KV read is caught, logged, and turned into `null`. -/
def getTriggerStatus (g : KVGet) (databaseId : String) : Option TriggerStatus :=
  match g (triggerKey databaseId) with
  | Except.ok v => v
  | Except.error _ => none

/-- `updateTriggerStatus` (later revision): always recomputes
`nextTriggerTime = now + delayMinutes * 60 * 1000` from the current time,
regardless of any existing record (the existing record is read only for
logging), and writes `{databaseId, nextTriggerTime, pending: true, updatedAt: now}`. -/
def updateTriggerStatus (st : Store) (databaseId : String) (delayMinutes : JSNum)
    (now : Int) : Store :=
  let nextTriggerTime :=
    jsAdd (JSNum.num now) (jsMul (jsMul delayMinutes (JSNum.num 60)) (JSNum.num 1000))
  fun k =>
    if k = triggerKey databaseId then
      some ⟨databaseId, nextTriggerTime, true, now⟩
    else st k

/-- `clearTriggerStatus`: deletes the record at the derived key. -/
def clearTriggerStatus (st : Store) (databaseId : String) : Store :=
  fun k => if k = triggerKey databaseId then none else st k

/-- `canTriggerActions` (later revision): no record → `false`;
otherwise `status.pending && now >= status.nextTriggerTime`. -/
def canTriggerActions (g : KVGet) (databaseId : String) (now : Int) : Bool :=
  match getTriggerStatus g databaseId with
  | none => false
  | some status => status.pending && jsGe (JSNum.num now) status.nextTriggerTime

/-- `formatNotionId` from `src/notion/webhook.ts`: `id.replace(hyphenRegexGlobal, '')`,
i.e. remove every hyphen. -/
def formatNotionId (id : String) : String :=
  ⟨id.data.filter (fun c => c != '-')⟩

/-- The fields of a configured Notion database that the webhook handler and
the scheduled sweep inspect (`id`, `githubRepoId`); the remaining fields
(title, url, name, timestamps) only feed log/notification text. -/
structure NotionDatabase where
  id : String
  githubRepoId : Option String
deriving DecidableEq

/-- JavaScript `s.startsWith(pre)`. -/
def jsStartsWith (s pre : String) : Bool :=
  s.data.take pre.data.length == pre.data

/-- JavaScript `s.split(c)` at the character level: `""` splits to `[""]`,
separators at the ends produce empty components. -/
def splitOnChar (c : Char) : List Char → List (List Char)
  | [] => [[]]
  | x :: rest =>
    if x = c then [] :: splitOnChar c rest
    else
      match splitOnChar c rest with
      | [] => [[x]]
      | h :: t => (x :: h) :: t

/-- `githubRepoId.split('/')` followed by the `!owner || !repo` check of the
handlers: the first two `/`-separated components when both are nonempty. -/
def splitOwnerRepo (s : String) : Option (String × String) :=
  let parts := (splitOnChar '/' s.data).map (fun cs => (⟨cs⟩ : String))
  match parts.get? 0, parts.get? 1 with
  | some o, some r => if o = "" || r = "" then none else some (o, r)
  | _, _ => none

-- Evaluation lemmas for the store-level functions.

theorem canTriggerActions_store (st : Store) (databaseId : String) (now : Int) :
    canTriggerActions (storeGet st) databaseId now =
      match st (triggerKey databaseId) with
      | none => false
      | some status => status.pending && jsGe (JSNum.num now) status.nextTriggerTime := rfl

theorem updateTriggerStatus_at_key (st : Store) (databaseId : String)
    (delayMinutes : JSNum) (now : Int) :
    (updateTriggerStatus st databaseId delayMinutes now) (triggerKey databaseId) =
      some ⟨databaseId,
        jsAdd (JSNum.num now) (jsMul (jsMul delayMinutes (JSNum.num 60)) (JSNum.num 1000)),
        true, now⟩ := by
  simp [updateTriggerStatus]

theorem clearTriggerStatus_at_key (st : Store) (databaseId : String) :
    (clearTriggerStatus st databaseId) (triggerKey databaseId) = none := by
  simp [clearTriggerStatus]

/-- C1: every call to `updateTriggerStatus` at time `now` with an integer
`delayMinutes` writes, at the derived key, a record with
`nextTriggerTime = now + delayMinutes * 60 * 1000`, `pending = true` and
`updatedAt = now` — for every prior store contents, so in particular
regardless of whether a record already existed or was pending
(reset-on-retrigger: the new deadline never depends on the previous
record's `nextTriggerTime`). -/
theorem updateTriggerStatus_reset_on_retrigger
    (st : Store) (databaseId : String) (delayMinutes now : Int) :
    (updateTriggerStatus st databaseId (JSNum.num delayMinutes) now) (triggerKey databaseId) =
      some ⟨databaseId, JSNum.num (now + delayMinutes * 60 * 1000), true, now⟩ := by
  simp [updateTriggerStatus, jsAdd, jsMul]

/-- C2: `canTriggerActions` at time `now` returns `true` iff a record is
successfully read for the id, its `pending` field is `true`, and
`now >= nextTriggerTime` (JavaScript `>=`, hence false against NaN); in
particular it is `false` when no record exists and when `pending = false`. -/
theorem canTriggerActions_iff (g : KVGet) (databaseId : String) (now : Int) :
    canTriggerActions g databaseId now = true ↔
      ∃ status : TriggerStatus,
        g (triggerKey databaseId) = Except.ok (some status) ∧
        status.pending = true ∧
        jsGe (JSNum.num now) status.nextTriggerTime = true := by
  unfold canTriggerActions getTriggerStatus
  cases h : g (triggerKey databaseId) with
  | ok v =>
    cases v with
    | none =>
      simp only [Bool.false_eq_true, false_iff]
      rintro ⟨s, hs, -⟩
      simp at hs
    | some status =>
      simp only [Bool.and_eq_true]
      constructor
      · rintro ⟨hp, hg⟩
        exact ⟨status, rfl, hp, hg⟩
      · rintro ⟨s, hs, hp, hg⟩
        cases Option.some.inj (Except.ok.inj hs)
        exact ⟨hp, hg⟩
  | error e =>
    simp only [Bool.false_eq_true, false_iff]
    rintro ⟨s, hs, -⟩
    simp at hs

/-- C6: `getTriggerStatus` never propagates a failed store read: on any
read error it returns `null`, and the caller `canTriggerActions` then
treats the entity as "nothing pending" (returns `false`). -/
theorem getTriggerStatus_fails_soft (g : KVGet) (databaseId : String) (now : Int)
    (herr : g (triggerKey databaseId) = Except.error ()) :
    getTriggerStatus g databaseId = none ∧
      canTriggerActions g databaseId now = false := by
  unfold canTriggerActions getTriggerStatus
  rw [herr]
  exact ⟨rfl, rfl⟩

/-- Witness for C6 at a concrete always-failing read. -/
theorem getTriggerStatus_fails_soft_witness :
    getTriggerStatus (fun _ => Except.error ()) "db" = none ∧
      canTriggerActions (fun _ => Except.error ()) "db" 0 = false :=
  getTriggerStatus_fails_soft (fun _ => Except.error ()) "db" 0 rfl

/-- The fields of a Notion webhook update event that `handleDatabaseUpdate`
inspects: `body.type` and `body.data?.parent?.id` (absent parent modelled
as `none`). -/
structure WebhookBody where
  eventType : String
  parentId : Option String
deriving DecidableEq

/-- The tagged union of inbound webhook payloads, discriminated in the
source by `'verification_token' in body`. -/
inductive WebhookRequest where
  | verification (token : String) : WebhookRequest
  | update (body : WebhookBody) : WebhookRequest
deriving DecidableEq

/-- An inbound HTTP request to `/api/notion/webhook` as inspected by
`handleNotionWebhook`: method, the `x-notion-signature` header (absent =
`none`), and the JSON body (`none` = the body fails to parse). -/
structure InboundRequest where
  method : String
  signature : Option String
  body : Option WebhookRequest
deriving DecidableEq

/-- The per-entity firing step shared by the scheduled sweep
(`src/worker.ts`, the try/catch around `triggerGitHubAction` +
`clearTriggerStatus`): on dispatch success the record is deleted; a thrown
dispatch error is caught and logged, leaving the store untouched. -/
def fireEntity (st : Store) (databaseId : String) (dispatch : Except Unit Unit) : Store :=
  match dispatch with
  | Except.ok _ => clearTriggerStatus st databaseId
  | Except.error _ => st

/-- `handleDatabaseUpdate` from `src/notion/webhook.ts`, returning
(HTTP status, resulting store, whether `triggerGitHubAction` was called).
`dbs` is the list returned by `getAllNotionDatabasesFromKV`, `token` is
`env.GITHUB_TOKEN`, `delayEnv` is `env.TRIGGER_DELAY_MINUTES`, and
`dispatch` is the outcome of `triggerGitHubAction` if called. -/
def handleDatabaseUpdate (dbs : List NotionDatabase) (token : Option String)
    (delayEnv : Option String) (dispatch : Except Unit Unit) (st : Store)
    (now : Int) (body : WebhookBody) : Nat × Store × Bool :=
  if jsStartsWith body.eventType "page." || jsStartsWith body.eventType "database." then
    match body.parentId with
    | none => (400, st, false)
    | some rawDatabaseId =>
      let databaseId := formatNotionId rawDatabaseId
      match dbs.find? (fun db => formatNotionId db.id == databaseId) with
      | none => (200, st, false)
      | some updatedDatabase =>
        match updatedDatabase.githubRepoId with
        | none => (200, st, false)
        | some repoId =>
          if repoId = "" then (200, st, false)
          else
            match splitOwnerRepo repoId with
            | none => (400, st, false)
            | some _ =>
              match token with
              | none => (500, st, false)
              | some tok =>
                if tok = "" then (500, st, false)
                else
                  let delayMinutes := jsParseInt (jsOr delayEnv "5")
                  let st1 := updateTriggerStatus st databaseId delayMinutes now
                  if canTriggerActions (storeGet st1) databaseId now then
                    match dispatch with
                    | Except.ok _ => (200, clearTriggerStatus st1 databaseId, true)
                    | Except.error _ => (500, st1, true)
                  else (200, st1, false)
  else (200, st, false)

/-- `handleNotionWebhook` from `src/notion/webhook.ts`: OPTIONS and
non-POST short-circuits, then the `x-notion-signature` presence check
(401 before the body is parsed), then JSON parsing (a parse failure is
caught by the outer try/catch → 500), then the verification/update split.
A dispatch error thrown inside `handleDatabaseUpdate` reaches the same
outer catch, which is why the update branch already reports 500 there. -/
def handleNotionWebhook (dbs : List NotionDatabase) (token : Option String)
    (delayEnv : Option String) (dispatch : Except Unit Unit) (st : Store)
    (now : Int) (req : InboundRequest) : Nat × Store × Bool :=
  if req.method = "OPTIONS" then (200, st, false)
  else if req.method ≠ "POST" then (405, st, false)
  else
    match req.signature with
    | none => (401, st, false)
    | some signature =>
      if signature = "" then (401, st, false)
      else
        match req.body with
        | none => (500, st, false)
        | some (WebhookRequest.verification _) => (200, st, false)
        | some (WebhookRequest.update body) =>
          handleDatabaseUpdate dbs token delayEnv dispatch st now body

/-- One iteration of the `for (const database of databases)` loop of the
`scheduled` handler in `src/worker.ts`: skip unlinked databases, check
`canTriggerActions` on the hyphen-stripped id, validate owner/repo and the
GitHub token, then fire (with the per-entity try/catch of `fireEntity`). -/
def sweepStepDb (token : Option String) (now : Int)
    (disp : String → Except Unit Unit) (st : Store) (db : NotionDatabase) : Store :=
  match db.githubRepoId with
  | none => st
  | some repoId =>
    if repoId = "" then st
    else
      let databaseId := formatNotionId db.id
      if canTriggerActions (storeGet st) databaseId now then
        match splitOwnerRepo repoId with
        | none => st
        | some _ =>
          match token with
          | none => st
          | some tok =>
            if tok = "" then st
            else fireEntity st databaseId (disp databaseId)
      else st

/-- The `scheduled` sweep of `src/worker.ts`: iterate `sweepStepDb` over
the configured databases (the list read by `getAllNotionDatabasesFromKV`).
`disp` gives the outcome of `triggerGitHubAction` for each database id. -/
def scheduledSweep (token : Option String) (now : Int)
    (disp : String → Except Unit Unit) (st : Store) : List NotionDatabase → Store
  | [] => st
  | db :: rest => scheduledSweep token now disp (sweepStepDb token now disp st db) rest

/-- C7: an inbound update event whose (hyphen-stripped) parent database id
is not found in the stored database list, or whose first match has no
`githubRepoId` (absent or empty), is acknowledged with HTTP 200, writes no
trigger record (the store is returned unchanged) and makes no dispatch
call. -/
theorem handleDatabaseUpdate_noop_untracked
    (dbs : List NotionDatabase) (token : Option String) (delayEnv : Option String)
    (dispatch : Except Unit Unit) (st : Store) (now : Int) (body : WebhookBody)
    (raw : String)
    (hraw : body.parentId = some raw)
    (hmiss : dbs.find? (fun db => formatNotionId db.id == formatNotionId raw) = none ∨
      ∃ db, dbs.find? (fun x => formatNotionId x.id == formatNotionId raw) = some db ∧
        (db.githubRepoId = none ∨ db.githubRepoId = some "")) :
    handleDatabaseUpdate dbs token delayEnv dispatch st now body = (200, st, false) := by
  unfold handleDatabaseUpdate
  by_cases he : (jsStartsWith body.eventType "page." || jsStartsWith body.eventType "database.") = true
  · rw [if_pos he, hraw]
    rcases hmiss with hfind | ⟨db, hfind, hrepo⟩
    · simp only [hfind]
    · rcases hrepo with h | h <;> simp [hfind, h]
  · rw [if_neg he]

/-- Witness for C7: an update event for a database absent from the list. -/
theorem handleDatabaseUpdate_noop_untracked_witness :
    handleDatabaseUpdate [⟨"other", some "o/r"⟩] (some "tok") none (Except.ok ())
        (fun _ => none) 0 ⟨"page.content_updated", some "abcd-1234"⟩ =
      (200, fun _ => none, false) :=
  handleDatabaseUpdate_noop_untracked [⟨"other", some "o/r"⟩] (some "tok") none
    (Except.ok ()) (fun _ => none) 0 ⟨"page.content_updated", some "abcd-1234"⟩
    "abcd-1234" rfl (Or.inl (by decide))

/-- C10: a POST to the Notion webhook endpoint without an
`x-notion-signature` header is rejected with 401 before the body is even
parsed (the same result for every body, including an unparsable one), with
the store unchanged and no dispatch call; and when the header is present
and nonempty its value is never inspected further — any two nonempty
values yield identical behaviour. -/
theorem handleNotionWebhook_signature_presence_only
    (dbs : List NotionDatabase) (token : Option String) (delayEnv : Option String)
    (dispatch : Except Unit Unit) (st : Store) (now : Int)
    (b : Option WebhookRequest) (m s₁ s₂ : String)
    (hm : m = "POST") (hs₁ : s₁ ≠ "") (hs₂ : s₂ ≠ "") :
    handleNotionWebhook dbs token delayEnv dispatch st now ⟨m, none, b⟩ = (401, st, false) ∧
    handleNotionWebhook dbs token delayEnv dispatch st now ⟨m, some s₁, b⟩ =
      handleNotionWebhook dbs token delayEnv dispatch st now ⟨m, some s₂, b⟩ := by
  subst hm
  unfold handleNotionWebhook
  simp [hs₁, hs₂]

/-- Witness for C10 with a parseable update body that would dispatch if it
were reached. -/
theorem handleNotionWebhook_signature_presence_only_witness :
    handleNotionWebhook [⟨"abcd1234", some "o/r"⟩] (some "tok") (some "0") (Except.ok ())
        (fun _ => none) 0
        ⟨"POST", none, some (WebhookRequest.update ⟨"page.content_updated", some "abcd1234"⟩)⟩ =
      (401, fun _ => none, false) ∧
    handleNotionWebhook [⟨"abcd1234", some "o/r"⟩] (some "tok") (some "0") (Except.ok ())
        (fun _ => none) 0
        ⟨"POST", some "sig-one", some (WebhookRequest.update ⟨"page.content_updated", some "abcd1234"⟩)⟩ =
      handleNotionWebhook [⟨"abcd1234", some "o/r"⟩] (some "tok") (some "0") (Except.ok ())
        (fun _ => none) 0
        ⟨"POST", some "sig-two", some (WebhookRequest.update ⟨"page.content_updated", some "abcd1234"⟩)⟩ :=
  handleNotionWebhook_signature_presence_only [⟨"abcd1234", some "o/r"⟩] (some "tok")
    (some "0") (Except.ok ()) (fun _ => none) 0
    (some (WebhookRequest.update ⟨"page.content_updated", some "abcd1234"⟩))
    "POST" "sig-one" "sig-two" rfl (by decide) (by decide)

/-- C8: two raw entity ids that agree once all hyphens are removed are
mapped by the webhook handler's normalization (`formatNotionId`) plus the
store's key derivation (`triggerKey`) to the same store key, so reads
(`getTriggerStatus`) and writes (`updateTriggerStatus`) through either id
hit the same trigger record. -/
theorem formatNotionId_key_collision (id1 id2 : String) (g : KVGet) (st : Store)
    (dm : JSNum) (now : Int)
    (h : id1.data.filter (fun c => c != '-') = id2.data.filter (fun c => c != '-')) :
    triggerKey (formatNotionId id1) = triggerKey (formatNotionId id2) ∧
    getTriggerStatus g (formatNotionId id1) = getTriggerStatus g (formatNotionId id2) ∧
    updateTriggerStatus st (formatNotionId id1) dm now =
      updateTriggerStatus st (formatNotionId id2) dm now := by
  have hf : formatNotionId id1 = formatNotionId id2 := by
    unfold formatNotionId
    rw [h]
  rw [hf]
  exact ⟨rfl, rfl, rfl⟩

/-- Witness for C8 at the spec's example pair `"abcd-1234"` / `"abcd1234"`. -/
theorem formatNotionId_key_collision_witness :
    triggerKey (formatNotionId "abcd-1234") = triggerKey (formatNotionId "abcd1234") ∧
    getTriggerStatus (fun _ => Except.ok none) (formatNotionId "abcd-1234") =
      getTriggerStatus (fun _ => Except.ok none) (formatNotionId "abcd1234") ∧
    updateTriggerStatus (fun _ => none) (formatNotionId "abcd-1234") (JSNum.num 5) 0 =
      updateTriggerStatus (fun _ => none) (formatNotionId "abcd1234") (JSNum.num 5) 0 :=
  formatNotionId_key_collision "abcd-1234" "abcd1234" (fun _ => Except.ok none)
    (fun _ => none) (JSNum.num 5) 0 (by decide)

/-- C4: whenever a due entity is fired, the trigger record is deleted iff
the dispatch call succeeds.  First two conjuncts: the scheduled sweep's
per-entity firing step (`fireEntity`) deletes the record exactly on
dispatch success and leaves the whole store untouched when dispatch
throws.  Third conjunct: the webhook immediate-due path behaves the same —
on success the freshly written record is deleted, on a thrown dispatch the
store keeps exactly the record written by `updateTriggerStatus`, ready for
a later periodic tick. -/
theorem fire_deletes_record_iff_dispatch_succeeds
    (st : Store) (databaseId : String) (rec : TriggerStatus) (r : Except Unit Unit)
    (dbs : List NotionDatabase) (db : NotionDatabase) (tok raw repoId : String)
    (pr : String × String) (delayEnv : Option String) (body : WebhookBody) (now : Int)
    (hrec : st (triggerKey databaseId) = some rec) :
    ((fireEntity st databaseId r) (triggerKey databaseId) = none ↔ r = Except.ok ()) ∧
    (r = Except.error () → fireEntity st databaseId r = st) ∧
    (jsStartsWith body.eventType "page." = true →
      body.parentId = some raw →
      dbs.find? (fun x => formatNotionId x.id == formatNotionId raw) = some db →
      db.githubRepoId = some repoId → repoId ≠ "" →
      splitOwnerRepo repoId = some pr → tok ≠ "" →
      canTriggerActions (storeGet (updateTriggerStatus st (formatNotionId raw)
          (jsParseInt (jsOr delayEnv "5")) now)) (formatNotionId raw) now = true →
      (handleDatabaseUpdate dbs (some tok) delayEnv (Except.ok ()) st now body).2.1
          (triggerKey (formatNotionId raw)) = none ∧
      (handleDatabaseUpdate dbs (some tok) delayEnv (Except.error ()) st now body).2.1 =
        updateTriggerStatus st (formatNotionId raw) (jsParseInt (jsOr delayEnv "5")) now) := by
  refine ⟨?_, ?_, ?_⟩
  · cases r with
    | ok u =>
      cases u
      simp [fireEntity, clearTriggerStatus_at_key]
    | error e =>
      cases e
      simp [fireEntity, hrec]
  · intro hr
    rw [hr]
    rfl
  · intro h1 h2 hfind hrepo hne hsplit htok hdue
    unfold handleDatabaseUpdate
    have he : (jsStartsWith body.eventType "page." || jsStartsWith body.eventType "database.") = true := by
      simp [h1]
    simp only [if_pos he, h2, hfind, hrepo, if_neg hne, hsplit, if_neg htok, if_pos hdue]
    exact ⟨clearTriggerStatus_at_key _ _, trivial⟩

/-- Witness for C4: a record becomes due immediately via delay `0`
(`TRIGGER_DELAY_MINUTES = "0"`); the success path deletes it, the failure
path keeps the freshly written record. -/
theorem fire_deletes_record_iff_dispatch_succeeds_witness :
    ((fireEntity
        (fun k => if k = triggerKey "abcd1234" then some ⟨"abcd1234", JSNum.num 0, true, 0⟩ else none)
        "abcd1234" (Except.ok ())) (triggerKey "abcd1234") = none ↔
      (Except.ok () : Except Unit Unit) = Except.ok ()) ∧
    (handleDatabaseUpdate [⟨"abcd-1234", some "o/r"⟩] (some "tok") (some "0") (Except.ok ())
        (fun k => if k = triggerKey "abcd1234" then some ⟨"abcd1234", JSNum.num 0, true, 0⟩ else none)
        7 ⟨"page.content_updated", some "abcd-1234"⟩).2.1
      (triggerKey (formatNotionId "abcd-1234")) = none := by
  have h := fire_deletes_record_iff_dispatch_succeeds
    (fun k => if k = triggerKey "abcd1234" then some ⟨"abcd1234", JSNum.num 0, true, 0⟩ else none)
    "abcd1234" ⟨"abcd1234", JSNum.num 0, true, 0⟩ (Except.ok ())
    [⟨"abcd-1234", some "o/r"⟩] ⟨"abcd-1234", some "o/r"⟩ "tok" "abcd-1234" "o/r"
    ("o", "r") (some "0") ⟨"page.content_updated", some "abcd-1234"⟩ 7 (by decide)
  exact ⟨h.1, (h.2.2 (by decide) rfl (by decide) rfl (by decide) (by decide) (by decide) (by decide)).1⟩

-- The scheduled sweep never writes records: it can only delete, so a key
-- that is absent stays absent, and a record that is never due is never touched.

theorem clearTriggerStatus_other (st : Store) (databaseId k : String)
    (h : k ≠ triggerKey databaseId) :
    (clearTriggerStatus st databaseId) k = st k := by
  simp [clearTriggerStatus, h]

theorem sweepStepDb_cases (token : Option String) (now : Int)
    (disp : String → Except Unit Unit) (st : Store) (db : NotionDatabase) (k : String) :
    (sweepStepDb token now disp st db) k = st k ∨ (sweepStepDb token now disp st db) k = none := by
  obtain ⟨dbid, repoOpt⟩ := db
  cases repoOpt with
  | none => exact Or.inl rfl
  | some repoId =>
    by_cases hempty : repoId = ""
    · exact Or.inl (by simp [sweepStepDb, hempty])
    · by_cases hcan : canTriggerActions (storeGet st) (formatNotionId dbid) now = true
      · cases hs : splitOwnerRepo repoId with
        | none => exact Or.inl (by simp [sweepStepDb, hempty, hcan, hs])
        | some pr =>
          cases token with
          | none => exact Or.inl (by simp [sweepStepDb, hempty, hcan, hs])
          | some tok =>
            by_cases ht : tok = ""
            · exact Or.inl (by simp [sweepStepDb, hempty, hcan, hs, ht])
            · cases hdisp : disp (formatNotionId dbid) with
              | ok u =>
                by_cases hk : k = triggerKey (formatNotionId dbid)
                · refine Or.inr ?_
                  simp [sweepStepDb, hempty, hcan, hs, ht, hdisp, fireEntity, clearTriggerStatus, hk]
                · refine Or.inl ?_
                  simp [sweepStepDb, hempty, hcan, hs, ht, hdisp, fireEntity, clearTriggerStatus, hk]
              | error e =>
                exact Or.inl (by simp [sweepStepDb, hempty, hcan, hs, ht, hdisp, fireEntity])
      · exact Or.inl (by simp [sweepStepDb, hempty, hcan])

theorem scheduledSweep_absent (token : Option String) (now : Int)
    (disp : String → Except Unit Unit) :
    ∀ (dbs : List NotionDatabase) (st : Store) (k : String), st k = none →
      (scheduledSweep token now disp st dbs) k = none := by
  intro dbs
  induction dbs with
  | nil => intro st k h; exact h
  | cons db rest ih =>
    intro st k h
    show (scheduledSweep token now disp (sweepStepDb token now disp st db) rest) k = none
    rcases sweepStepDb_cases token now disp st db k with hc | hc
    · exact ih _ k (hc.trans h)
    · exact ih _ k hc

theorem sweepStepDb_preserves_never_due (token : Option String) (now : Int)
    (disp : String → Except Unit Unit) (st : Store) (db : NotionDatabase)
    (k : String) (rec : TriggerStatus)
    (hk : st k = some rec) (hnan : rec.nextTriggerTime = JSNum.nan) :
    (sweepStepDb token now disp st db) k = st k := by
  obtain ⟨dbid, repoOpt⟩ := db
  cases repoOpt with
  | none => rfl
  | some repoId =>
    by_cases hempty : repoId = ""
    · simp [sweepStepDb, hempty]
    · by_cases hcan : canTriggerActions (storeGet st) (formatNotionId dbid) now = true
      · by_cases hkey : k = triggerKey (formatNotionId dbid)
        · exfalso
          rw [canTriggerActions_store, ← hkey, hk] at hcan
          simp [hnan, jsGe] at hcan
        · cases hs : splitOwnerRepo repoId with
          | none => simp [sweepStepDb, hempty, hcan, hs]
          | some pr =>
            cases token with
            | none => simp [sweepStepDb, hempty, hcan, hs]
            | some tok =>
              by_cases ht : tok = ""
              · simp [sweepStepDb, hempty, hcan, hs, ht]
              · cases hdisp : disp (formatNotionId dbid) with
                | ok u =>
                  simp [sweepStepDb, hempty, hcan, hs, ht, hdisp, fireEntity,
                    clearTriggerStatus, hkey]
                | error e =>
                  simp [sweepStepDb, hempty, hcan, hs, ht, hdisp, fireEntity]
      · simp [sweepStepDb, hempty, hcan]

theorem scheduledSweep_preserves_never_due (token : Option String) (now : Int)
    (disp : String → Except Unit Unit) (k : String) (rec : TriggerStatus)
    (hnan : rec.nextTriggerTime = JSNum.nan) :
    ∀ (dbs : List NotionDatabase) (st : Store), st k = some rec →
      (scheduledSweep token now disp st dbs) k = some rec := by
  intro dbs
  induction dbs with
  | nil => intro st h; exact h
  | cons db rest ih =>
    intro st h
    show (scheduledSweep token now disp (sweepStepDb token now disp st db) rest) k = some rec
    exact ih _ ((sweepStepDb_preserves_never_due token now disp st db k rec h hnan).trans h)

/-- C5: in one scheduled sweep over the configured databases, whatever the
dispatch outcomes for the other entities are (in particular when some
entity k's dispatch call throws — every per-entity failure is confined to
`fireEntity`'s catch and the loop continues), any member database that is
linked to a well-formed repo, whose record is due, and whose own dispatch
succeeds ends the sweep with its trigger record deleted. -/
theorem scheduledSweep_failure_isolation
    (db : NotionDatabase) (tok repoId : String) (pr : String × String) (now : Int)
    (disp : String → Except Unit Unit) (rec : TriggerStatus)
    (hrepo : db.githubRepoId = some repoId) (hne : repoId ≠ "")
    (hsplit : splitOwnerRepo repoId = some pr) (htok : tok ≠ "")
    (hpend : rec.pending = true)
    (hdue : jsGe (JSNum.num now) rec.nextTriggerTime = true)
    (hok : disp (formatNotionId db.id) = Except.ok ()) :
    ∀ (dbs : List NotionDatabase) (st : Store), db ∈ dbs →
      st (triggerKey (formatNotionId db.id)) = some rec →
      (scheduledSweep (some tok) now disp st dbs) (triggerKey (formatNotionId db.id)) = none := by
  intro dbs
  induction dbs with
  | nil =>
    intro st hmem hrec
    exact absurd hmem (List.not_mem_nil db)
  | cons hd rest ih =>
    intro st hmem hrec
    show (scheduledSweep (some tok) now disp (sweepStepDb (some tok) now disp st hd) rest)
        (triggerKey (formatNotionId db.id)) = none
    rcases List.mem_cons.mp hmem with rfl | hmem2
    · have hcan : canTriggerActions (storeGet st) (formatNotionId db.id) now = true := by
        rw [canTriggerActions_store, hrec]
        simp [hpend, hdue]
      have hstep : (sweepStepDb (some tok) now disp st db) (triggerKey (formatNotionId db.id)) = none := by
        simp [sweepStepDb, hrepo, hne, hcan, hsplit, htok, hok, fireEntity, clearTriggerStatus]
      exact scheduledSweep_absent (some tok) now disp rest _ _ hstep
    · rcases sweepStepDb_cases (some tok) now disp st hd (triggerKey (formatNotionId db.id)) with hc | hc
      · exact ih _ hmem2 (hc.trans hrec)
      · exact scheduledSweep_absent (some tok) now disp rest _ _ hc

/-- Witness for C5: two databases; the first one's dispatch fails, the
second (due) one still ends with its record deleted. -/
theorem scheduledSweep_failure_isolation_witness :
    (scheduledSweep (some "tok") 1000
      (fun i => if i = "aaa" then Except.ok () else Except.error ())
      (fun k => if k = triggerKey "aaa" then some ⟨"aaa", JSNum.num 500, true, 0⟩ else none)
      [⟨"bbb", some "x/y"⟩, ⟨"aaa", some "o/r"⟩]) (triggerKey "aaa") = none :=
  scheduledSweep_failure_isolation ⟨"aaa", some "o/r"⟩ "tok" "o/r" ("o", "r") 1000
    (fun i => if i = "aaa" then Except.ok () else Except.error ())
    ⟨"aaa", JSNum.num 500, true, 0⟩ rfl (by decide) (by decide) (by decide) rfl
    (by decide) rfl
    [⟨"bbb", some "x/y"⟩, ⟨"aaa", some "o/r"⟩]
    (fun k => if k = triggerKey "aaa" then some ⟨"aaa", JSNum.num 500, true, 0⟩ else none)
    (by decide) (by decide)

/-- C9, counterexample to the claim as stated: the empty string is a string
`parseInt` cannot parse (`parseInt('')` is NaN), yet with
`TRIGGER_DELAY_MINUTES = ''` the code computes
`parseInt(env.TRIGGER_DELAY_MINUTES || '5', 10) = 5` — the `|| '5'`
fallback treats `''` as unset — so the stored `nextTriggerTime` is
`now + 300000`, not NaN. -/
theorem trigger_delay_nan_counterexample :
    jsParseInt "" = JSNum.nan ∧
    jsParseInt (jsOr (some "") "5") = JSNum.num 5 ∧
    (updateTriggerStatus (fun _ => none) "db" (jsParseInt (jsOr (some "") "5")) 0)
        (triggerKey "db") = some ⟨"db", JSNum.num 300000, true, 0⟩ := by
  refine ⟨by decide, by decide, by decide⟩

/-- C9 as amended: if `TRIGGER_DELAY_MINUTES` is a *non-empty* string that
`parseInt` cannot parse, the computed delay is NaN, `updateTriggerStatus`
stores `nextTriggerTime = NaN`, `canTriggerActions` then returns false for
every current time (`now >= NaN` is false), and no scheduled sweep ever
deletes the record — a pending record that is never due and never
cleared. -/
theorem trigger_delay_nan_sticks
    (s : String) (st : Store) (dbId : String) (now now2 : Int)
    (dbs : List NotionDatabase) (token : Option String) (disp : String → Except Unit Unit)
    (hne : s ≠ "") (hnan : jsParseInt s = JSNum.nan) :
    jsParseInt (jsOr (some s) "5") = JSNum.nan ∧
    (updateTriggerStatus st dbId (jsParseInt (jsOr (some s) "5")) now) (triggerKey dbId) =
      some ⟨dbId, JSNum.nan, true, now⟩ ∧
    canTriggerActions
      (storeGet (updateTriggerStatus st dbId (jsParseInt (jsOr (some s) "5")) now)) dbId now2 = false ∧
    (scheduledSweep token now2 disp
        (updateTriggerStatus st dbId (jsParseInt (jsOr (some s) "5")) now) dbs)
      (triggerKey dbId) = some ⟨dbId, JSNum.nan, true, now⟩ := by
  have h1 : jsParseInt (jsOr (some s) "5") = JSNum.nan := by
    simp [jsOr, hne, hnan]
  have h2 : (updateTriggerStatus st dbId (jsParseInt (jsOr (some s) "5")) now) (triggerKey dbId) =
      some ⟨dbId, JSNum.nan, true, now⟩ := by
    rw [updateTriggerStatus_at_key, h1]
    simp [jsMul, jsAdd]
  refine ⟨h1, h2, ?_, ?_⟩
  · rw [canTriggerActions_store, h2]
    simp [jsGe]
  · exact scheduledSweep_preserves_never_due token now2 disp _ _ rfl dbs _ h2

/-- Witness for the amended C9 at `TRIGGER_DELAY_MINUTES = "abc"`. -/
theorem trigger_delay_nan_sticks_witness :
    (updateTriggerStatus (fun _ => none) "db" (jsParseInt (jsOr (some "abc") "5")) 0)
        (triggerKey "db") = some ⟨"db", JSNum.nan, true, 0⟩ ∧
    canTriggerActions
      (storeGet (updateTriggerStatus (fun _ => none) "db" (jsParseInt (jsOr (some "abc") "5")) 0))
      "db" 999999999 = false :=
  ⟨(trigger_delay_nan_sticks "abc" (fun _ => none) "db" 0 999999999 [] none
      (fun _ => Except.error ()) (by decide) (by decide)).2.1,
   (trigger_delay_nan_sticks "abc" (fun _ => none) "db" 0 999999999 [] none
      (fun _ => Except.error ()) (by decide) (by decide)).2.2.1⟩

/-- An externally observable event for one tracked entity: a qualifying
`notifyUpdate` webhook call at time `t` (the handler writes the record and
runs the immediate-due check), or a scheduled tick at time `t` whose
dispatch, if firing, succeeds. -/
inductive TraceEvent where
  | update (t : Int) : TraceEvent
  | sweep (t : Int) : TraceEvent
deriving DecidableEq

def TraceEvent.time : TraceEvent → Int
  | TraceEvent.update t => t
  | TraceEvent.sweep t => t

/-- The times of the `notifyUpdate` calls in a trace, in order. -/
def updateTimes (es : List TraceEvent) : List Int :=
  es.filterMap fun e =>
    match e with
    | TraceEvent.update t => some t
    | TraceEvent.sweep _ => none

/-- Whether the trace contains a scheduled tick at or after `L + d*60*1000`
(the debounce deadline of a last update at `L` with delay `d` minutes). -/
def hasLateSweep (d L : Int) (es : List TraceEvent) : Bool :=
  es.any fun e =>
    match e with
    | TraceEvent.sweep s => decide (L + d * 60 * 1000 ≤ s)
    | TraceEvent.update _ => false

/-- The record `updateTriggerStatus` writes for an update at time `tl` with
integer delay `d` minutes. -/
def burstRec (databaseId : String) (d tl : Int) : TriggerStatus :=
  ⟨databaseId, JSNum.num (tl + d * 60 * 1000), true, tl⟩

/-- Last element of a list of times, with default `a` for the empty list. -/
def lastD (l : List Int) (a : Int) : Int :=
  match l with
  | [] => a
  | b :: t => lastD t b

/-- The debounce-relevant effect of one qualifying webhook call for a
tracked, linked database (`handleDatabaseUpdate` lines 121–128): write the
record via `updateTriggerStatus`, then the immediate-due check — fire and
clear when already due (the `delay = 0` edge case). Returns the new store
and whether a dispatch happened. -/
def webhookStep (databaseId : String) (d : Int) (now : Int) (st : Store) : Store × Bool :=
  let st1 := updateTriggerStatus st databaseId (JSNum.num d) now
  if canTriggerActions (storeGet st1) databaseId now then
    (clearTriggerStatus st1 databaseId, true)
  else (st1, false)

/-- The single-entity effect of one scheduled tick whose dispatch succeeds:
fire and clear when `canTriggerActions` holds, else do nothing. -/
def sweepStepOne (databaseId : String) (now : Int) (st : Store) : Store × Bool :=
  if canTriggerActions (storeGet st) databaseId now then
    (clearTriggerStatus st databaseId, true)
  else (st, false)

/-- Run a chronological trace of events for one entity, counting the
dispatch calls that occur. -/
def runTrace (databaseId : String) (d : Int) (st : Store) : List TraceEvent → Store × Nat
  | [] => (st, 0)
  | TraceEvent.update t :: es =>
    let r := webhookStep databaseId d t st
    let rest := runTrace databaseId d r.1 es
    (rest.1, (if r.2 then 1 else 0) + rest.2)
  | TraceEvent.sweep t :: es =>
    let r := sweepStepOne databaseId t st
    let rest := runTrace databaseId d r.1 es
    (rest.1, (if r.2 then 1 else 0) + rest.2)

-- Small facts about the trace bookkeeping functions.

theorem updateTimes_cons_update (t : Int) (es : List TraceEvent) :
    updateTimes (TraceEvent.update t :: es) = t :: updateTimes es := rfl

theorem updateTimes_cons_sweep (t : Int) (es : List TraceEvent) :
    updateTimes (TraceEvent.sweep t :: es) = updateTimes es := rfl

theorem mem_updateTimes {t : Int} {es : List TraceEvent} :
    t ∈ updateTimes es ↔ TraceEvent.update t ∈ es := by
  unfold updateTimes
  rw [List.mem_filterMap]
  constructor
  · rintro ⟨e, he, hfe⟩
    cases e with
    | update u =>
      simp only [Option.some.injEq] at hfe
      exact hfe ▸ he
    | sweep u => simp at hfe
  · intro h
    exact ⟨TraceEvent.update t, h, rfl⟩

theorem hasLateSweep_cons_update (d L t : Int) (es : List TraceEvent) :
    hasLateSweep d L (TraceEvent.update t :: es) = hasLateSweep d L es := by
  simp [hasLateSweep]

theorem hasLateSweep_cons_sweep (d L s : Int) (es : List TraceEvent) :
    hasLateSweep d L (TraceEvent.sweep s :: es) =
      (decide (L + d * 60 * 1000 ≤ s) || hasLateSweep d L es) := rfl

theorem lastD_cons (b : Int) (t : List Int) (a : Int) : lastD (b :: t) a = lastD t b := rfl

theorem lastD_mem : ∀ (l : List Int) (a : Int), l ≠ [] → lastD l a ∈ l := by
  intro l
  induction l with
  | nil => intro a h; exact absurd rfl h
  | cons b t ih =>
    intro a _
    cases ht : t with
    | nil =>
      subst ht
      simp [lastD]
    | cons c r =>
      subst ht
      exact List.mem_cons_of_mem b (ih b (by simp))

theorem getLast?_eq_lastD : ∀ (l : List Int) (b : Int), (b :: l).getLast? = some (lastD l b) := by
  intro l
  induction l with
  | nil => intro b; rfl
  | cons c r ih =>
    intro b
    rw [List.getLast?_cons_cons, ih, lastD_cons]

theorem dropWhile_head_false {α : Type} :
    ∀ (l : List α) (f : α → Bool) (x : α) (r : List α), l.dropWhile f = x :: r → f x = false := by
  intro l f
  induction l with
  | nil => intro x r h; cases h
  | cons a t ih =>
    intro x r h
    rw [List.dropWhile_cons] at h
    by_cases hfa : f a = true
    · rw [if_pos hfa] at h
      exact ih x r h
    · rw [if_neg hfa] at h
      cases h
      exact Bool.not_eq_true _ ▸ Bool.eq_false_iff.mpr hfa

-- Store evaluation on the burst record and reduction lemmas for `runTrace`.

theorem updateTriggerStatus_burst (st : Store) (databaseId : String) (d t : Int) :
    (updateTriggerStatus st databaseId (JSNum.num d) t) (triggerKey databaseId) =
      some (burstRec databaseId d t) := by
  simp [updateTriggerStatus, jsAdd, jsMul, burstRec]

theorem canTriggerActions_absent (st : Store) (databaseId : String) (now : Int)
    (h : st (triggerKey databaseId) = none) :
    canTriggerActions (storeGet st) databaseId now = false := by
  rw [canTriggerActions_store, h]

theorem canTriggerActions_burst (st : Store) (databaseId : String) (d tl now : Int)
    (h : st (triggerKey databaseId) = some (burstRec databaseId d tl)) :
    canTriggerActions (storeGet st) databaseId now = decide (tl + d * 60 * 1000 ≤ now) := by
  rw [canTriggerActions_store, h]
  simp [burstRec, jsGe]

theorem runTrace_cons_update_noFire (databaseId : String) (d t : Int) (st : Store)
    (es : List TraceEvent)
    (hc : canTriggerActions
      (storeGet (updateTriggerStatus st databaseId (JSNum.num d) t)) databaseId t = false) :
    runTrace databaseId d st (TraceEvent.update t :: es) =
      runTrace databaseId d (updateTriggerStatus st databaseId (JSNum.num d) t) es := by
  simp [runTrace, webhookStep, hc]

theorem runTrace_cons_sweep_noFire (databaseId : String) (d s : Int) (st : Store)
    (es : List TraceEvent)
    (hc : canTriggerActions (storeGet st) databaseId s = false) :
    runTrace databaseId d st (TraceEvent.sweep s :: es) = runTrace databaseId d st es := by
  simp [runTrace, sweepStepOne, hc]

theorem runTrace_cons_sweep_fire (databaseId : String) (d s : Int) (st : Store)
    (es : List TraceEvent)
    (hc : canTriggerActions (storeGet st) databaseId s = true) :
    (runTrace databaseId d st (TraceEvent.sweep s :: es)).1 =
      (runTrace databaseId d (clearTriggerStatus st databaseId) es).1 ∧
    (runTrace databaseId d st (TraceEvent.sweep s :: es)).2 =
      1 + (runTrace databaseId d (clearTriggerStatus st databaseId) es).2 := by
  simp [runTrace, sweepStepOne, hc]

/-- A trace with no updates starting from an absent record never fires and
leaves the record absent (the sweep's "no record → nothing to do" path). -/
theorem runTrace_no_updates (databaseId : String) (d : Int) :
    ∀ (es : List TraceEvent) (st : Store), updateTimes es = [] →
      st (triggerKey databaseId) = none →
      (runTrace databaseId d st es).1 (triggerKey databaseId) = none ∧
      (runTrace databaseId d st es).2 = 0 := by
  intro es
  induction es with
  | nil => intro st _ h; exact ⟨h, rfl⟩
  | cons e rest ih =>
    intro st hupd h
    cases e with
    | update t =>
      rw [updateTimes_cons_update] at hupd
      cases hupd
    | sweep t =>
      rw [updateTimes_cons_sweep] at hupd
      rw [runTrace_cons_sweep_noFire databaseId d t st rest (canTriggerActions_absent st databaseId t h)]
      exact ih st hupd h

/-- Invariant of the burst phase: starting from the record written by the
last update at `tl`, with strictly increasing event times and update gaps
below the delay window, the trace fires exactly once iff it contains a
sweep at/after the final deadline, and the record at the end is deleted or
still the last-written one accordingly. -/
theorem runTrace_burst (databaseId : String) (d : Int) (hd : 0 < d) :
    ∀ (es : List TraceEvent) (st : Store) (tl : Int),
      es.Pairwise (fun a b => a.time < b.time) →
      List.Chain' (fun a b => b < a + d * 60 * 1000) (tl :: updateTimes es) →
      st (triggerKey databaseId) = some (burstRec databaseId d tl) →
      (runTrace databaseId d st es).2 =
        (if hasLateSweep d (lastD (updateTimes es) tl) es then 1 else 0) ∧
      (runTrace databaseId d st es).1 (triggerKey databaseId) =
        (if hasLateSweep d (lastD (updateTimes es) tl) es then none
         else some (burstRec databaseId d (lastD (updateTimes es) tl))) := by
  have hD : (0 : Int) < d * 60 * 1000 :=
    mul_pos (mul_pos hd (by norm_num)) (by norm_num)
  intro es
  induction es with
  | nil =>
    intro st tl _ _ hst
    refine ⟨rfl, ?_⟩
    simpa [hasLateSweep, updateTimes, lastD] using hst
  | cons e rest ih =>
    intro st tl hpw hch hst
    cases e with
    | update t =>
      have hst1 := updateTriggerStatus_burst st databaseId d t
      have hcant : canTriggerActions
          (storeGet (updateTriggerStatus st databaseId (JSNum.num d) t)) databaseId t = false := by
        rw [canTriggerActions_burst _ _ _ _ _ hst1]
        exact decide_eq_false (by omega)
      rw [runTrace_cons_update_noFire databaseId d t st rest hcant]
      rw [updateTimes_cons_update] at hch
      have hpw' := (List.pairwise_cons.mp hpw).2
      have hch' := (List.chain'_cons.mp hch).2
      rw [updateTimes_cons_update, lastD_cons, hasLateSweep_cons_update]
      exact ih (updateTriggerStatus st databaseId (JSNum.num d) t) t hpw' hch' hst1
    | sweep s =>
      rw [updateTimes_cons_sweep] at hch
      rw [updateTimes_cons_sweep, hasLateSweep_cons_sweep]
      by_cases hdue : tl + d * 60 * 1000 ≤ s
      · have hcan : canTriggerActions (storeGet st) databaseId s = true := by
          rw [canTriggerActions_burst _ _ _ _ _ hst]
          exact decide_eq_true hdue
        obtain ⟨hs1, hs2⟩ := runTrace_cons_sweep_fire databaseId d s st rest hcan
        have hupd : updateTimes rest = [] := by
          cases hu : updateTimes rest with
          | nil => rfl
          | cons t r =>
            exfalso
            have htmem : TraceEvent.update t ∈ rest := mem_updateTimes.mp (hu ▸ List.mem_cons_self t r)
            have hlt : s < t := (List.pairwise_cons.mp hpw).1 _ htmem
            have hgap : t < tl + d * 60 * 1000 := by
              rw [hu] at hch
              exact (List.chain'_cons.mp hch).1
            omega
        obtain ⟨hr1, hr2⟩ := runTrace_no_updates databaseId d rest (clearTriggerStatus st databaseId)
          hupd (clearTriggerStatus_at_key st databaseId)
        rw [hupd]
        constructor
        · rw [hs2, hr2]
          simp [decide_eq_true hdue, lastD]
        · rw [hs1, hr1]
          simp [decide_eq_true hdue, lastD]
      · have hcan : canTriggerActions (storeGet st) databaseId s = false := by
          rw [canTriggerActions_burst _ _ _ _ _ hst]
          exact decide_eq_false hdue
        rw [runTrace_cons_sweep_noFire databaseId d s st rest hcan]
        have hpw' := (List.pairwise_cons.mp hpw).2
        obtain ⟨ih1, ih2⟩ := ih st tl hpw' hch hst
        have hearly : ¬ (lastD (updateTimes rest) tl + d * 60 * 1000 ≤ s) := by
          cases hu : updateTimes rest with
          | nil => simpa [lastD] using hdue
          | cons t r =>
            have hmem : lastD (t :: r) tl ∈ updateTimes rest := by
              rw [hu]
              exact lastD_mem _ tl (by simp)
            have hup : TraceEvent.update (lastD (t :: r) tl) ∈ rest :=
              mem_updateTimes.mp hmem
            have hlt : s < lastD (t :: r) tl := (List.pairwise_cons.mp hpw).1 _ hup
            omega
        rw [decide_eq_false hearly]
        simpa using ⟨ih1, ih2⟩

theorem updateTimes_append (l1 l2 : List TraceEvent) :
    updateTimes (l1 ++ l2) = updateTimes l1 ++ updateTimes l2 := by
  simp [updateTimes, List.filterMap_append]

/-- Full debounce run from an absent record: with strictly increasing
event times and update gaps below the delay window, a trace containing at
least one update fires exactly once iff some sweep falls at/after the last
update's deadline, and the record ends deleted or equal to the last write
accordingly. -/
theorem runTrace_from_absent (databaseId : String) (d : Int) (hd : 0 < d) :
    ∀ (es : List TraceEvent) (st : Store),
      es.Pairwise (fun a b => a.time < b.time) →
      List.Chain' (fun a b => b < a + d * 60 * 1000) (updateTimes es) →
      st (triggerKey databaseId) = none →
      updateTimes es ≠ [] →
      (runTrace databaseId d st es).2 =
        (if hasLateSweep d (lastD (updateTimes es) 0) es then 1 else 0) ∧
      (runTrace databaseId d st es).1 (triggerKey databaseId) =
        (if hasLateSweep d (lastD (updateTimes es) 0) es then none
         else some (burstRec databaseId d (lastD (updateTimes es) 0))) := by
  have hD : (0 : Int) < d * 60 * 1000 :=
    mul_pos (mul_pos hd (by norm_num)) (by norm_num)
  intro es
  induction es with
  | nil =>
    intro st _ _ _ hne
    exact absurd rfl hne
  | cons e rest ih =>
    intro st hpw hch hst hne
    cases e with
    | update t =>
      have hst1 := updateTriggerStatus_burst st databaseId d t
      have hcant : canTriggerActions
          (storeGet (updateTriggerStatus st databaseId (JSNum.num d) t)) databaseId t = false := by
        rw [canTriggerActions_burst _ _ _ _ _ hst1]
        exact decide_eq_false (by omega)
      rw [runTrace_cons_update_noFire databaseId d t st rest hcant]
      rw [updateTimes_cons_update] at hch
      rw [updateTimes_cons_update, lastD_cons, hasLateSweep_cons_update]
      exact runTrace_burst databaseId d hd rest
        (updateTriggerStatus st databaseId (JSNum.num d) t) t
        (List.pairwise_cons.mp hpw).2 hch hst1
    | sweep s =>
      have hcan := canTriggerActions_absent st databaseId s hst
      rw [runTrace_cons_sweep_noFire databaseId d s st rest hcan]
      rw [updateTimes_cons_sweep] at hch hne
      rw [updateTimes_cons_sweep, hasLateSweep_cons_sweep]
      obtain ⟨ih1, ih2⟩ := ih st (List.pairwise_cons.mp hpw).2 hch hst hne
      have hearly : ¬ (lastD (updateTimes rest) 0 + d * 60 * 1000 ≤ s) := by
        have hmem : lastD (updateTimes rest) 0 ∈ updateTimes rest := lastD_mem _ 0 hne
        have hup : TraceEvent.update (lastD (updateTimes rest) 0) ∈ rest :=
          mem_updateTimes.mp hmem
        have hlt : s < lastD (updateTimes rest) 0 := (List.pairwise_cons.mp hpw).1 _ hup
        omega
      rw [decide_eq_false hearly]
      simpa using ⟨ih1, ih2⟩

/-- C3: for a chronological trace of `notifyUpdate` calls for one entity
whose consecutive calls are spaced less than the delay window apart,
interleaved with scheduled ticks (whose dispatch, when firing, succeeds):
(1) exactly one dispatch occurs per quiet period — the run fires exactly
once when some tick falls at/after `tLast + delay` (and never before), and
zero times otherwise; (2) at any observation time before `tLast + delay`,
after processing every event up to that time, `canTriggerActions` (the
`isDue` check) still returns false. -/
theorem debounce_single_dispatch_per_quiet_period
    (databaseId : String) (d : Int) (es : List TraceEvent) (st0 : Store) (tLast : Int)
    (hd : 0 < d)
    (hsorted : es.Pairwise (fun a b => a.time < b.time))
    (hgaps : List.Chain' (fun a b => b < a + d * 60 * 1000) (updateTimes es))
    (hne : updateTimes es ≠ [])
    (hlast : lastD (updateTimes es) 0 = tLast)
    (hstart : st0 (triggerKey databaseId) = none) :
    (runTrace databaseId d st0 es).2 = (if hasLateSweep d tLast es then 1 else 0) ∧
    ∀ now : Int, now < tLast + d * 60 * 1000 →
      canTriggerActions
        (storeGet ((runTrace databaseId d st0 (es.takeWhile fun e => decide (e.time ≤ now))).1))
        databaseId now = false := by
  have hD : (0 : Int) < d * 60 * 1000 :=
    mul_pos (mul_pos hd (by norm_num)) (by norm_num)
  subst hlast
  constructor
  · exact (runTrace_from_absent databaseId d hd es st0 hsorted hgaps hstart hne).1
  · intro now hnow
    have hsplit : (es.takeWhile fun e => decide (e.time ≤ now)) ++
        (es.dropWhile fun e => decide (e.time ≤ now)) = es :=
      List.takeWhile_append_dropWhile (fun e => decide (e.time ≤ now)) es
    have hupdsplit : updateTimes es =
        updateTimes (es.takeWhile fun e => decide (e.time ≤ now)) ++
        updateTimes (es.dropWhile fun e => decide (e.time ≤ now)) := by
      conv_lhs => rw [← hsplit]
      exact updateTimes_append _ _
    have hsubp : List.Sublist (es.takeWhile fun e => decide (e.time ≤ now)) es :=
      List.takeWhile_sublist _
    have hpwp : (es.takeWhile fun e => decide (e.time ≤ now)).Pairwise
        (fun a b => a.time < b.time) := List.Pairwise.sublist hsubp hsorted
    have hchp : List.Chain' (fun a b => b < a + d * 60 * 1000)
        (updateTimes (es.takeWhile fun e => decide (e.time ≤ now))) := by
      have h2 := hgaps
      rw [hupdsplit] at h2
      exact (List.chain'_append.mp h2).1
    cases hupp : updateTimes (es.takeWhile fun e => decide (e.time ≤ now)) with
    | nil =>
      obtain ⟨h1, h2⟩ := runTrace_no_updates databaseId d
        (es.takeWhile fun e => decide (e.time ≤ now)) st0 hupp hstart
      rw [canTriggerActions_absent _ _ _ h1]
    | cons t0 r0 =>
      have hpne : updateTimes (es.takeWhile fun e => decide (e.time ≤ now)) ≠ [] := by
        rw [hupp]
        simp
      obtain ⟨hc, hs⟩ := runTrace_from_absent databaseId d hd
        (es.takeWhile fun e => decide (e.time ≤ now)) st0 hpwp hchp hstart hpne
      have hi : now < lastD (updateTimes (es.takeWhile fun e => decide (e.time ≤ now))) 0 +
          d * 60 * 1000 := by
        cases huq : updateTimes (es.dropWhile fun e => decide (e.time ≤ now)) with
        | nil =>
          have hpq : updateTimes es =
              updateTimes (es.takeWhile fun e => decide (e.time ≤ now)) := by
            rw [hupdsplit, huq, List.append_nil]
          rw [hpq] at hnow
          exact hnow
        | cons tn rn =>
          have hgap2 := hgaps
          rw [hupdsplit, huq] at hgap2
          have hjunc := (List.chain'_append.mp hgap2).2.2
          have hlastp : (updateTimes (es.takeWhile fun e => decide (e.time ≤ now))).getLast? =
              some (lastD (updateTimes (es.takeWhile fun e => decide (e.time ≤ now))) 0) := by
            rw [hupp, getLast?_eq_lastD]
            rfl
          have hgaptn : tn <
              lastD (updateTimes (es.takeWhile fun e => decide (e.time ≤ now))) 0 +
              d * 60 * 1000 := by
            have hx : lastD (updateTimes (es.takeWhile fun e => decide (e.time ≤ now))) 0 ∈
                (updateTimes (es.takeWhile fun e => decide (e.time ≤ now))).getLast? := by
              rw [hlastp]
              rfl
            exact hjunc _ hx tn rfl
          have htnm : TraceEvent.update tn ∈ es.dropWhile fun e => decide (e.time ≤ now) :=
            mem_updateTimes.mp (huq ▸ List.mem_cons_self tn rn)
          have hqg : ∀ e ∈ es.dropWhile fun e => decide (e.time ≤ now), now < e.time := by
            intro e he
            cases hqe : es.dropWhile fun e => decide (e.time ≤ now) with
            | nil =>
              rw [hqe] at he
              cases he
            | cons e0 q2 =>
              have h0 : decide (e0.time ≤ now) = false :=
                dropWhile_head_false es _ e0 q2 hqe
              have h0' : now < e0.time := by
                have := of_decide_eq_false h0
                omega
              rw [hqe] at he
              rcases List.mem_cons.mp he with rfl | he2
              · exact h0'
              · have hsubq : List.Sublist (es.dropWhile fun e => decide (e.time ≤ now)) es :=
                  List.dropWhile_sublist _
                have hpwq := List.Pairwise.sublist hsubq hsorted
                rw [hqe] at hpwq
                have h01 := (List.pairwise_cons.mp hpwq).1 _ he2
                omega
          have htn : now < tn := hqg _ htnm
          omega
      by_cases hls : hasLateSweep d
          (lastD (updateTimes (es.takeWhile fun e => decide (e.time ≤ now))) 0)
          (es.takeWhile fun e => decide (e.time ≤ now)) = true
      · rw [if_pos hls] at hs
        rw [canTriggerActions_absent _ _ _ hs]
      · rw [if_neg hls] at hs
        rw [canTriggerActions_burst _ _ _ _ _ hs]
        exact decide_eq_false (by omega)

/-- Witness for C3: delay 5 minutes, updates at 0 and 60000 (one minute
apart), ticks at 200000 (early, no fire) and 400000 (past the deadline
360000): exactly one dispatch. -/
theorem debounce_single_dispatch_per_quiet_period_witness :
    (runTrace "db" 5 (fun _ => none)
      [TraceEvent.update 0, TraceEvent.update 60000,
       TraceEvent.sweep 200000, TraceEvent.sweep 400000]).2 = 1 := by
  have h := (debounce_single_dispatch_per_quiet_period "db" 5
    [TraceEvent.update 0, TraceEvent.update 60000,
     TraceEvent.sweep 200000, TraceEvent.sweep 400000]
    (fun _ => none) 60000 (by decide) (by decide)
    (by
      show List.Chain' (fun a b => b < a + 5 * 60 * 1000) [0, 60000]
      norm_num [List.chain'_cons])
    (by decide) (by decide) rfl).1
  simpa using h
